import Mathlib

/-!
# SmartMeal scoring engine — shallow embedding

Verification of the rating-to-score pipeline of `src/app.py` (SmartMeal).
Python floats are modelled as exact rationals (`ℚ`); a pandas `Series`
is modelled as a `List ℚ`; the insertion-ordered Python dict
`st.session_state.recipe_ratings` is modelled as an association list
`List (ℕ × Entry)` in insertion order.  Python's built-in `round(x, 2)`
(round-half-to-even) is modelled exactly by `roundHalfEven`.
-/

namespace SmartMeal

/-- Python's built-in `round` to an integer: round half to even. -/
def roundHalfEven (q : ℚ) : ℤ :=
  let f := ⌊q⌋
  if q - f < 1/2 then f
  else if 1/2 < q - f then f + 1
  else if 2 ∣ f then f else f + 1

/-- Python's `round(q, 2)`: round to 2 decimal places, half to even. -/
def round2 (q : ℚ) : ℚ := (roundHalfEven (q * 100) : ℚ) / 100

/-- `calculate_price(base_price, rating)` from `src/app.py` lines 174–195:
dynamic price from the rating band, rounded to 2 decimals. -/
def calculate_price (base_price : ℚ) (rating : ℚ) : ℚ :=
  if base_price = 0 then 0
  else if rating ≥ 4.5 then round2 (base_price * 1.2)
  else if rating < 3.0 then round2 (base_price * 0.9)
  else round2 base_price

/-- `bayesian_average(ratings, C=3.5, m=5)` from `src/app.py` lines 222–239.
The call sites always use the default prior `C = 3.5`, `m = 5`. -/
def bayesian_average (ratings : List ℚ) : ℚ :=
  let C : ℚ := 3.5
  let m : ℚ := 5
  let n : ℚ := ratings.length
  if ratings.length = 0 then 0
  else (m * C + n * (ratings.sum / n)) / (m + n)

/-- `series.max()` of a pandas Series modelled as a list (0 on empty,
an unreachable case in the program). -/
def listMax : List ℚ → ℚ
  | [] => 0
  | x :: xs => xs.foldl max x

/-- `series.min()` of a pandas Series modelled as a list (0 on empty,
an unreachable case in the program). -/
def listMin : List ℚ → ℚ
  | [] => 0
  | x :: xs => xs.foldl min x

/-- `_norm(series, reverse)` from `src/app.py` lines 269–285:
min-max normalization of a Series, all-ones when `max == min`,
complemented when `reverse`. -/
def _norm (series : List ℚ) (reverse : Bool) : List ℚ :=
  if listMax series = listMin series then series.map fun _ => 1
  else
    let res := series.map fun x =>
      (x - listMin series) / (listMax series - listMin series)
    if reverse then res.map fun x => 1 - x else res

/-- One value of the `recipe_ratings` session dict: the per-recipe record
built by the save-rating handler (`src/app.py` lines 555–568). -/
structure Entry where
  title : String
  image : String
  calories : ℚ
  base_price : ℚ
  protein : ℚ
  fat : ℚ
  carbs : ℚ
  ratings : List ℚ
deriving DecidableEq, Repr

/-- One row of the score DataFrame produced by `build_score_df`. -/
structure ScoreRow where
  id : ℕ
  title : String
  image : String
  calories : ℚ
  bayes_rating : ℚ
  price : ℚ
  norm_rating : ℚ
  norm_price : ℚ
  norm_cal : ℚ
  score : ℚ
deriving DecidableEq, Repr

/-- Composite-score weight for the normalized rating (`WEIGHT_RATING`). -/
def WEIGHT_RATING : ℚ := 0.5

/-- Composite-score weight for the normalized price (`WEIGHT_PRICE`). -/
def WEIGHT_PRICE : ℚ := 0.3

/-- Composite-score weight for the normalized calories (`WEIGHT_CAL`). -/
def WEIGHT_CAL : ℚ := 0.2

/-- The row dict appended by `build_score_df` for one rated entry
(`src/app.py` lines 303–319): id, passthrough fields, the Bayesian
rating and the dynamic price (normalized columns not yet present,
placeholder `0`). -/
def baseRow (p : ℕ × Entry) : ScoreRow :=
  let bayes := bayesian_average p.2.ratings
  { id := p.1
    title := p.2.title
    image := p.2.image
    calories := p.2.calories
    bayes_rating := bayes
    price := calculate_price p.2.base_price bayes
    norm_rating := 0
    norm_price := 0
    norm_cal := 0
    score := 0 }

/-- Adding the three normalized columns and the `score` column to a row,
given the row's entries of the normalized Series
(`src/app.py` lines 328–341). -/
def withNorms (p : ScoreRow × (ℚ × (ℚ × ℚ))) : ScoreRow :=
  { p.1 with
    norm_rating := p.2.1
    norm_price := p.2.2.1
    norm_cal := p.2.2.2
    score := WEIGHT_RATING * p.2.1 + WEIGHT_PRICE * p.2.2.1
      + WEIGHT_CAL * p.2.2.2 }

/-- `build_score_df()` from `src/app.py` lines 287–345, with the session
dict passed explicitly as an insertion-ordered association list.  Skips
entries with no ratings, computes the Bayesian rating and dynamic price
per row, then adds the three normalized columns and the weighted score. -/
def build_score_df (recipe_ratings : List (ℕ × Entry)) : List ScoreRow :=
  let rows := (recipe_ratings.filter fun p => !p.2.ratings.isEmpty).map baseRow
  if rows.isEmpty then []
  else
    let nr := _norm (rows.map (·.bayes_rating)) false
    let np := _norm (rows.map (·.price)) true
    let nc := _norm (rows.map (·.calories)) true
    (rows.zip (nr.zip (np.zip nc))).map withNorms

/-- `df["score"].idxmax()` step: fold keeping the current best row; a later
row replaces the best only on a strictly greater score, so the first
occurrence of the maximum wins, as with pandas `idxmax`. -/
def idxmaxAux : List ScoreRow → ScoreRow → ScoreRow
  | [], best => best
  | r :: rs, best => idxmaxAux rs (if best.score < r.score then r else best)

/-- `choose_dish_of_the_day(df)` from `src/app.py` lines 347–362:
`(None, 0.0)` on an empty frame, else the first row of maximal score
together with that score. -/
def choose_dish_of_the_day (df : List ScoreRow) : Option ScoreRow × ℚ :=
  match df with
  | [] => (none, 0)
  | r :: rs =>
    let best := idxmaxAux rs r
    (some best, best.score)

/-- Association-list lookup modelling `rid in recipe_ratings` /
`recipe_ratings[rid]`. -/
def lookup : List (ℕ × Entry) → ℕ → Option Entry
  | [], _ => none
  | p :: rest, rid => if p.1 = rid then some p.2 else lookup rest rid

/-- In-place value replacement at a key, keeping dict order (mutating the
entry object held in the Python dict). -/
def updateEntry : List (ℕ × Entry) → ℕ → Entry → List (ℕ × Entry)
  | [], _, _ => []
  | p :: rest, rid, e =>
    if p.1 = rid then (p.1, e) :: rest else p :: updateEntry rest rid e

/-- The save-rating form handler (`src/app.py` lines 555–568):
`recipe_ratings.setdefault(rid, {fresh entry with ratings: []})["ratings"]
.append(rating)`.  If `rid` is absent a fresh entry is inserted at the end
(Python dicts append new keys); then the rating is appended to the entry
actually stored under `rid`. -/
def save_rating (state : List (ℕ × Entry)) (rid : ℕ) (title image : String)
    (calories base_price protein fat carbs rating : ℚ) : List (ℕ × Entry) :=
  match lookup state rid with
  | some e => updateEntry state rid { e with ratings := e.ratings ++ [rating] }
  | none => state ++ [(rid,
      { title := title
        image := image
        calories := calories
        base_price := base_price
        protein := protein
        fat := fat
        carbs := carbs
        ratings := [rating] })]

/-- The scoring pass as the spec words it (§4.4 `score_all`): discard
items with empty ratings, compute the smoothed rating and adjusted price
per retained item, normalize the three collections over the retained
collection (rating straight, price and calories reversed), and take the
weighted composite.  Compared against `build_score_df` in claim C4. -/
def score_all_spec (recipe_ratings : List (ℕ × Entry)) : List ScoreRow :=
  let retained := recipe_ratings.filter fun p => !p.2.ratings.isEmpty
  let smoothed := retained.map fun p => bayesian_average p.2.ratings
  let adjusted := retained.map fun p =>
    calculate_price p.2.base_price (bayesian_average p.2.ratings)
  let normalized_rating := _norm smoothed false
  let normalized_price := _norm adjusted true
  let normalized_calories := _norm (retained.map fun p => p.2.calories) true
  (retained.zip (normalized_rating.zip
      (normalized_price.zip normalized_calories))).map fun p =>
    { id := p.1.1
      title := p.1.2.title
      image := p.1.2.image
      calories := p.1.2.calories
      bayes_rating := bayesian_average p.1.2.ratings
      price := calculate_price p.1.2.base_price (bayesian_average p.1.2.ratings)
      norm_rating := p.2.1
      norm_price := p.2.2.1
      norm_cal := p.2.2.2
      score := 0.5 * p.2.1 + 0.3 * p.2.2.1 + 0.2 * p.2.2.2 }

/-- Item A of the spec's end-to-end scenario (§8). -/
def itemA : Entry :=
  { title := "A"
    image := "imgA"
    calories := 400
    base_price := 10
    protein := 0
    fat := 0
    carbs := 0
    ratings := [5, 5] }

/-- Item B of the spec's end-to-end scenario (§8). -/
def itemB : Entry :=
  { title := "B"
    image := "imgB"
    calories := 800
    base_price := 8
    protein := 0
    fat := 0
    carbs := 0
    ratings := [3] }

/-- Item C of the spec's end-to-end scenario (§8). -/
def itemC : Entry :=
  { title := "C"
    image := "imgC"
    calories := 300
    base_price := 12
    protein := 0
    fat := 0
    carbs := 0
    ratings := [1, 1, 1] }

/-!
## Fallible mirror of the core

Each division of the source is replaced by `qdivChecked`, which fails
(returns `none`) on a zero divisor, mirroring a Python
`ZeroDivisionError`.  Claim C9 proves the checked pipeline never fails
and agrees with the total embedding above.
-/

/-- Division that fails on a zero divisor. -/
def qdivChecked (a b : ℚ) : Option ℚ := if b = 0 then none else some (a / b)

/-- `mapM` over `Option` written by structural recursion. -/
def mapOption {α β : Type} (f : α → Option β) : List α → Option (List β)
  | [] => some []
  | x :: xs => do
    let y ← f x
    let ys ← mapOption f xs
    pure (y :: ys)

/-- `round2` with its division checked. -/
def round2Checked (q : ℚ) : Option ℚ :=
  qdivChecked ((roundHalfEven (q * 100) : ℤ) : ℚ) 100

/-- `calculate_price` with every division checked. -/
def calculate_priceChecked (base_price : ℚ) (rating : ℚ) : Option ℚ :=
  if base_price = 0 then some 0
  else if rating ≥ 4.5 then round2Checked (base_price * 1.2)
  else if rating < 3.0 then round2Checked (base_price * 0.9)
  else round2Checked base_price

/-- `bayesian_average` with every division checked. -/
def bayesian_averageChecked (ratings : List ℚ) : Option ℚ :=
  let C : ℚ := 3.5
  let m : ℚ := 5
  let n : ℚ := ratings.length
  if ratings.length = 0 then some 0
  else do
    let observed ← qdivChecked ratings.sum n
    qdivChecked (m * C + n * observed) (m + n)

/-- `_norm` with every division checked. -/
def normChecked (series : List ℚ) (reverse : Bool) : Option (List ℚ) :=
  if listMax series = listMin series then some (series.map fun _ => 1)
  else do
    let res ← mapOption (fun x =>
      qdivChecked (x - listMin series) (listMax series - listMin series)) series
    pure (if reverse then res.map fun x => 1 - x else res)

/-- `baseRow` with every division checked. -/
def baseRowChecked (p : ℕ × Entry) : Option ScoreRow := do
  let bayes ← bayesian_averageChecked p.2.ratings
  let price ← calculate_priceChecked p.2.base_price bayes
  pure ({ id := p.1
          title := p.2.title
          image := p.2.image
          calories := p.2.calories
          bayes_rating := bayes
          price := price
          norm_rating := 0
          norm_price := 0
          norm_cal := 0
          score := 0 } : ScoreRow)

/-- `build_score_df` with every division checked. -/
def build_score_dfChecked (recipe_ratings : List (ℕ × Entry)) :
    Option (List ScoreRow) := do
  let rows ← mapOption baseRowChecked
    (recipe_ratings.filter fun p => !p.2.ratings.isEmpty)
  if rows.isEmpty then pure []
  else do
    let nr ← normChecked (rows.map (·.bayes_rating)) false
    let np ← normChecked (rows.map (·.price)) true
    let nc ← normChecked (rows.map (·.calories)) true
    pure ((rows.zip (nr.zip (np.zip nc))).map withNorms)

/-- pandas `Series.idxmax` raises on an empty series; modelled as `none`. -/
def idxmaxChecked (df : List ScoreRow) : Option ScoreRow :=
  match df with
  | [] => none
  | r :: rs => some (idxmaxAux rs r)

/-- `choose_dish_of_the_day` with the `idxmax` call checked: the
`df.empty` guard must make the fallible call unreachable. -/
def choose_dish_of_the_dayChecked (df : List ScoreRow) :
    Option (Option ScoreRow × ℚ) :=
  if df.isEmpty then some (none, 0)
  else do
    let best ← idxmaxChecked df
    pure (some best, best.score)

/-- Fixture row with composite score `1`, for concrete instantiations. -/
def rowX : ScoreRow :=
  { id := 11
    title := "X"
    image := "imgX"
    calories := 500
    bayes_rating := 4
    price := 9
    norm_rating := 1
    norm_price := 1
    norm_cal := 1
    score := 1 }

/-- Fixture row with composite score `2`, for concrete instantiations. -/
def rowY : ScoreRow :=
  { id := 12
    title := "Y"
    image := "imgY"
    calories := 600
    bayes_rating := 5
    price := 7
    norm_rating := 1
    norm_price := 1
    norm_cal := 1
    score := 2 }

/-- The score row the pipeline computes for item A of the end-to-end
scenario (exact rationals; claim C6 relates them to the spec's rounded
decimals). -/
def scoreRowA : ScoreRow :=
  { id := 1
    title := "A"
    image := "imgA"
    calories := 400
    bayes_rating := 55/14
    price := 10
    norm_rating := 1
    norm_price := 2/7
    norm_cal := 4/5
    score := 261/350 }

/-- The score row the pipeline computes for item B of the end-to-end
scenario. -/
def scoreRowB : ScoreRow :=
  { id := 2
    title := "B"
    image := "imgB"
    calories := 800
    bayes_rating := 41/12
    price := 8
    norm_rating := 287/459
    norm_price := 1
    norm_cal := 0
    score := 1406/2295 }

/-- The score row the pipeline computes for item C of the end-to-end
scenario. -/
def scoreRowC : ScoreRow :=
  { id := 3
    title := "C"
    image := "imgC"
    calories := 300
    bayes_rating := 41/16
    price := 54/5
    norm_rating := 0
    norm_price := 0
    norm_cal := 1
    score := 1/5 }

/-!
## Helper lemmas
-/

theorem foldl_min_le_init (xs : List ℚ) : ∀ a : ℚ, xs.foldl min a ≤ a := by
  induction xs with
  | nil => intro a; exact le_refl a
  | cons x xs ih => intro a; exact le_trans (ih (min a x)) (min_le_left a x)

theorem foldl_min_le_mem (xs : List ℚ) :
    ∀ a x, x ∈ xs → xs.foldl min a ≤ x := by
  induction xs with
  | nil => intro a x hx; cases hx
  | cons y ys ih =>
    intro a x hx
    rcases List.mem_cons.mp hx with h1 | h2
    · subst h1
      exact le_trans (foldl_min_le_init ys (min a x)) (min_le_right a x)
    · exact ih (min a y) x h2

theorem le_foldl_min (xs : List ℚ) :
    ∀ a c : ℚ, c ≤ a → (∀ x ∈ xs, c ≤ x) → c ≤ xs.foldl min a := by
  induction xs with
  | nil => intro a c hc _; exact hc
  | cons y ys ih =>
    intro a c hc hall
    exact ih _ c (le_min hc (hall y (List.mem_cons_self y ys)))
      fun x hx => hall x (List.mem_cons_of_mem y hx)

theorem init_le_foldl_max (xs : List ℚ) : ∀ a : ℚ, a ≤ xs.foldl max a := by
  induction xs with
  | nil => intro a; exact le_refl a
  | cons x xs ih => intro a; exact le_trans (le_max_left a x) (ih (max a x))

theorem mem_le_foldl_max (xs : List ℚ) :
    ∀ a x, x ∈ xs → x ≤ xs.foldl max a := by
  induction xs with
  | nil => intro a x hx; cases hx
  | cons y ys ih =>
    intro a x hx
    rcases List.mem_cons.mp hx with h1 | h2
    · subst h1
      exact le_trans (le_max_right a x) (init_le_foldl_max ys (max a x))
    · exact ih (max a y) x h2

theorem foldl_max_le (xs : List ℚ) :
    ∀ a c : ℚ, a ≤ c → (∀ x ∈ xs, x ≤ c) → xs.foldl max a ≤ c := by
  induction xs with
  | nil => intro a c hc _; exact hc
  | cons y ys ih =>
    intro a c hc hall
    exact ih _ c (max_le hc (hall y (List.mem_cons_self y ys)))
      fun x hx => hall x (List.mem_cons_of_mem y hx)

theorem listMin_le_mem {l : List ℚ} {x : ℚ} (hx : x ∈ l) : listMin l ≤ x := by
  cases l with
  | nil => cases hx
  | cons y ys =>
    rcases List.mem_cons.mp hx with h1 | h2
    · exact h1 ▸ foldl_min_le_init ys y
    · exact foldl_min_le_mem ys y x h2

theorem mem_le_listMax {l : List ℚ} {x : ℚ} (hx : x ∈ l) : x ≤ listMax l := by
  cases l with
  | nil => cases hx
  | cons y ys =>
    rcases List.mem_cons.mp hx with h1 | h2
    · exact h1 ▸ init_le_foldl_max ys y
    · exact mem_le_foldl_max ys y x h2

theorem le_listMin {l : List ℚ} (h : l ≠ []) {c : ℚ}
    (hall : ∀ x ∈ l, c ≤ x) : c ≤ listMin l := by
  cases l with
  | nil => exact absurd rfl h
  | cons y ys =>
    exact le_foldl_min ys y c (hall y (List.mem_cons_self y ys))
      fun x hx => hall x (List.mem_cons_of_mem y hx)

theorem listMax_le {l : List ℚ} (h : l ≠ []) {c : ℚ}
    (hall : ∀ x ∈ l, x ≤ c) : listMax l ≤ c := by
  cases l with
  | nil => exact absurd rfl h
  | cons y ys =>
    exact foldl_max_le ys y c (hall y (List.mem_cons_self y ys))
      fun x hx => hall x (List.mem_cons_of_mem y hx)

theorem listMin_le_listMax {l : List ℚ} (h : l ≠ []) :
    listMin l ≤ listMax l := by
  cases l with
  | nil => exact absurd rfl h
  | cons y ys =>
    exact le_trans (foldl_min_le_init ys y) (init_le_foldl_max ys y)

theorem mul_length_le_sum {l : List ℚ} {c : ℚ} (h : ∀ x ∈ l, c ≤ x) :
    c * l.length ≤ l.sum := by
  induction l with
  | nil => simp
  | cons x xs ih =>
    have h1 := h x (List.mem_cons_self x xs)
    have h2 := ih fun y hy => h y (List.mem_cons_of_mem x hy)
    simp only [List.length_cons, List.sum_cons]
    push_cast
    linarith

theorem sum_le_mul_length {l : List ℚ} {c : ℚ} (h : ∀ x ∈ l, x ≤ c) :
    l.sum ≤ c * l.length := by
  induction l with
  | nil => simp
  | cons x xs ih =>
    have h1 := h x (List.mem_cons_self x xs)
    have h2 := ih fun y hy => h y (List.mem_cons_of_mem x hy)
    simp only [List.length_cons, List.sum_cons]
    push_cast
    linarith

theorem bayesian_average_eq (ratings : List ℚ) (h : ratings ≠ []) :
    bayesian_average ratings
      = (5 * 3.5 + ratings.sum) / (5 + ratings.length) := by
  have hl : ratings.length ≠ 0 := fun hlen => h (List.length_eq_zero.mp hlen)
  have hq : (ratings.length : ℚ) ≠ 0 := Nat.cast_ne_zero.mpr hl
  simp only [bayesian_average, if_neg hl]
  rw [mul_comm ((ratings.length : ℚ)) (ratings.sum / ratings.length),
    div_mul_cancel₀ _ hq]

/-!
## Claim theorems
-/

/-- C1: `bayesian_average` returns `0.0` on an empty ratings list, and on
a non-empty list the precision-weighted blend
`(prior_weight * prior_mean + n * observed_mean) / (prior_weight + n)`
with `prior_mean = 3.5`, `prior_weight = 5`, `observed_mean = sum / n`. -/
theorem bayesian_average_spec (ratings : List ℚ) :
    bayesian_average [] = 0 ∧
    (ratings ≠ [] →
      bayesian_average ratings =
        (5 * 3.5 + (ratings.length : ℚ) * (ratings.sum / ratings.length)) /
          (5 + ratings.length)) := by
  refine ⟨by norm_num [bayesian_average], fun h => ?_⟩
  have hl : ratings.length ≠ 0 := fun hlen => h (List.length_eq_zero.mp hlen)
  simp [bayesian_average, hl]

theorem bayesian_average_spec_witness :
    ([4] : List ℚ) ≠ [] ∧
    bayesian_average [4] =
      (5 * 3.5 + (([4] : List ℚ).length : ℚ) *
        (([4] : List ℚ).sum / ([4] : List ℚ).length)) /
        (5 + ([4] : List ℚ).length) :=
  ⟨List.cons_ne_nil _ _, (bayesian_average_spec [4]).2 (List.cons_ne_nil _ _)⟩

/-- C2: `calculate_price` is the piecewise rounded multiplier with
half-open bands: `0` when the base price is `0`, `+20%` for ratings
`≥ 4.5`, `-10%` for ratings `< 3.0`, unchanged in between; the rating
`3.0` falls in the no-adjustment band and `4.5` in the premium band. -/
theorem calculate_price_spec (base_price rating : ℚ) :
    (base_price = 0 → calculate_price base_price rating = 0) ∧
    (rating ≥ 4.5 →
      calculate_price base_price rating = round2 (base_price * 1.2)) ∧
    (rating < 3.0 →
      calculate_price base_price rating = round2 (base_price * 0.9)) ∧
    (3.0 ≤ rating → rating < 4.5 →
      calculate_price base_price rating = round2 base_price) ∧
    calculate_price base_price 3.0 = round2 base_price ∧
    calculate_price base_price 4.5 = round2 (base_price * 1.2) := by
  by_cases hb : base_price = 0
  · subst hb
    norm_num [calculate_price, round2, roundHalfEven]
  · refine ⟨fun h => absurd h hb, fun h4 => ?_, fun h3 => ?_,
      fun hge hlt => ?_, ?_, ?_⟩
    · simp only [calculate_price]
      rw [if_neg hb, if_pos h4]
    · simp only [calculate_price]
      rw [if_neg hb, if_neg (by simp only [ge_iff_le, not_le]; linarith),
        if_pos h3]
    · simp only [calculate_price]
      rw [if_neg hb, if_neg (by simp only [ge_iff_le, not_le]; linarith),
        if_neg (not_lt.mpr hge)]
    · simp only [calculate_price]
      rw [if_neg hb, if_neg (by norm_num), if_neg (by norm_num)]
    · simp only [calculate_price]
      rw [if_neg hb, if_pos (by norm_num)]

theorem calculate_price_spec_witness :
    ((4.5 : ℚ) ≥ 4.5 ∧ calculate_price 10 4.5 = round2 (10 * 1.2)) ∧
    ((2.99 : ℚ) < 3.0 ∧ calculate_price 10 2.99 = round2 (10 * 0.9)) ∧
    ((3.0 : ℚ) ≤ 4.49 ∧ (4.49 : ℚ) < 4.5 ∧
      calculate_price 10 4.49 = round2 10) ∧
    ((0 : ℚ) = 0 ∧ calculate_price 0 7 = 0) :=
  ⟨⟨le_refl _, (calculate_price_spec 10 4.5).2.1 (le_refl _)⟩,
   ⟨by norm_num, (calculate_price_spec 10 2.99).2.2.1 (by norm_num)⟩,
   ⟨by norm_num, by norm_num,
    (calculate_price_spec 10 4.49).2.2.2.1 (by norm_num) (by norm_num)⟩,
   ⟨rfl, (calculate_price_spec 0 7).1 rfl⟩⟩

/-- C3: on a non-empty series, `_norm` maps everything to `1.0` when
`max == min`, otherwise min-max-scales each value (complemented when
`reverse`), and on `[1,2,3]` yields `[0, 0.5, 1]` straight and
`[1, 0.5, 0]` reversed. -/
theorem norm_spec (series : List ℚ) (reverse : Bool) (h : series ≠ []) :
    (listMax series = listMin series →
      _norm series reverse = series.map fun _ => 1) ∧
    (listMax series ≠ listMin series →
      _norm series reverse = series.map fun x =>
        if reverse then
          1 - (x - listMin series) / (listMax series - listMin series)
        else (x - listMin series) / (listMax series - listMin series)) ∧
    _norm [1, 2, 3] false = [0, 0.5, 1] ∧
    _norm [1, 2, 3] true = [1, 0.5, 0] := by
  refine ⟨fun he => by simp [_norm, he], fun hne => ?_,
    by norm_num [_norm, listMax, listMin, max_def, min_def],
    by norm_num [_norm, listMax, listMin, max_def, min_def]⟩
  simp only [_norm, if_neg hne]
  cases reverse with
  | false => simp
  | true => simp [List.map_map, Function.comp]

theorem norm_spec_witness :
    ([1, 2] : List ℚ) ≠ [] ∧ _norm [1, 2, 3] false = [0, 0.5, 1] :=
  ⟨List.cons_ne_nil _ _, (norm_spec [1, 2] true (List.cons_ne_nil _ _)).2.2.1⟩

theorem idxmaxAux_spec (rs : List ScoreRow) (best : ScoreRow) :
    (idxmaxAux rs best = best ∧ ∀ r ∈ rs, r.score ≤ best.score) ∨
    (∃ l₁ l₂, rs = l₁ ++ idxmaxAux rs best :: l₂ ∧
      best.score < (idxmaxAux rs best).score ∧
      (∀ r ∈ l₁, r.score < (idxmaxAux rs best).score) ∧
      ∀ r ∈ l₂, r.score ≤ (idxmaxAux rs best).score) := by
  induction rs generalizing best with
  | nil => exact Or.inl ⟨rfl, by simp⟩
  | cons r rs ih =>
    by_cases hr : best.score < r.score
    · have hstep : idxmaxAux (r :: rs) best = idxmaxAux rs r := by
        simp [idxmaxAux, hr]
      rw [hstep]
      rcases ih r with ⟨heq, hall⟩ | ⟨l₁, l₂, hsplit, hlt, hl₁, hl₂⟩
      · refine Or.inr ⟨[], rs, by simp [heq], ?_, by simp, ?_⟩
        · rw [heq]; exact hr
        · rw [heq]; exact hall
      · refine Or.inr ⟨r :: l₁, l₂,
          by rw [List.cons_append]; exact congrArg (fun l => r :: l) hsplit,
          lt_trans hr hlt, ?_, hl₂⟩
        intro x hx
        rcases List.mem_cons.mp hx with h1 | h2
        · rw [h1]; exact hlt
        · exact hl₁ x h2
    · have hstep : idxmaxAux (r :: rs) best = idxmaxAux rs best := by
        simp [idxmaxAux, hr]
      rw [hstep]
      rcases ih best with ⟨heq, hall⟩ | ⟨l₁, l₂, hsplit, hlt, hl₁, hl₂⟩
      · refine Or.inl ⟨heq, fun x hx => ?_⟩
        rcases List.mem_cons.mp hx with h1 | h2
        · rw [h1]; exact not_lt.mp hr
        · exact hall x h2
      · refine Or.inr ⟨r :: l₁, l₂,
          by rw [List.cons_append]; exact congrArg (fun l => r :: l) hsplit,
          hlt, ?_, hl₂⟩
        intro x hx
        rcases List.mem_cons.mp hx with h1 | h2
        · rw [h1]; exact lt_of_le_of_lt (not_lt.mp hr) hlt
        · exact hl₁ x h2

/-- C5: `choose_dish_of_the_day` returns no item on an empty frame, and
on a non-empty frame returns the row of maximal composite score together
with that score, choosing the first such row in input order on ties. -/
theorem choose_dish_of_the_day_spec (df : List ScoreRow) :
    (df = [] → choose_dish_of_the_day df = (none, 0)) ∧
    (df ≠ [] → ∃ best l₁ l₂, df = l₁ ++ best :: l₂ ∧
      choose_dish_of_the_day df = (some best, best.score) ∧
      (∀ r ∈ df, r.score ≤ best.score) ∧
      ∀ r ∈ l₁, r.score < best.score) := by
  constructor
  · intro h; subst h; rfl
  · intro h
    match df with
    | [] => exact absurd rfl h
    | r :: rs =>
      have hc : choose_dish_of_the_day (r :: rs)
          = (some (idxmaxAux rs r), (idxmaxAux rs r).score) := rfl
      rcases idxmaxAux_spec rs r with ⟨heq, hall⟩ | ⟨l₁, l₂, hsplit, hlt, hl₁, hl₂⟩
      · refine ⟨idxmaxAux rs r, [], rs, by simp [heq], hc, fun x hx => ?_, by simp⟩
        rw [heq]
        rcases List.mem_cons.mp hx with h1 | h2
        · rw [h1]
        · exact hall x h2
      · refine ⟨idxmaxAux rs r, r :: l₁, l₂,
          by rw [List.cons_append]; exact congrArg (fun l => r :: l) hsplit,
          hc, fun x hx => ?_, fun x hx => ?_⟩
        · rcases List.mem_cons.mp hx with h1 | h2
          · rw [h1]; exact le_of_lt hlt
          · rw [hsplit] at h2
            rcases List.mem_append.mp h2 with h3 | h4
            · exact le_of_lt (hl₁ x h3)
            · rcases List.mem_cons.mp h4 with h5 | h6
              · rw [h5]
              · exact hl₂ x h6
        · rcases List.mem_cons.mp hx with h1 | h2
          · rw [h1]; exact hlt
          · exact hl₁ x h2

theorem choose_dish_of_the_day_spec_witness :
    choose_dish_of_the_day [] = (none, 0) ∧
    ([rowX, rowY] ≠ [] ∧
      ∃ best l₁ l₂, [rowX, rowY] = l₁ ++ best :: l₂ ∧
        choose_dish_of_the_day [rowX, rowY] = (some best, best.score) ∧
        (∀ r ∈ [rowX, rowY], r.score ≤ best.score) ∧
        ∀ r ∈ l₁, r.score < best.score) :=
  ⟨(choose_dish_of_the_day_spec []).1 rfl,
   List.cons_ne_nil _ _,
   (choose_dish_of_the_day_spec [rowX, rowY]).2 (List.cons_ne_nil _ _)⟩


/-- C7: on a non-empty ratings list the smoothed rating lies between
`min(prior_mean, min(ratings))` and `max(prior_mean, max(ratings))` with
`prior_mean = 3.5`; hence ratings within `[1, 5]` give a smoothed rating
within `[1, 5]`. -/
theorem bayesian_average_bounds (ratings : List ℚ) (h : ratings ≠ []) :
    min 3.5 (listMin ratings) ≤ bayesian_average ratings ∧
    bayesian_average ratings ≤ max 3.5 (listMax ratings) ∧
    ((∀ r ∈ ratings, 1 ≤ r ∧ r ≤ 5) →
      1 ≤ bayesian_average ratings ∧ bayesian_average ratings ≤ 5) := by
  have heq := bayesian_average_eq ratings h
  have hlpos : 0 < ratings.length := List.length_pos.mpr h
  have hn : (0 : ℚ) < ratings.length := by exact_mod_cast hlpos
  have hden : (0 : ℚ) < 5 + ratings.length := by linarith
  have hlo : min 3.5 (listMin ratings) ≤ bayesian_average ratings := by
    rw [heq, le_div_iff₀ hden]
    have h1 : min (3.5 : ℚ) (listMin ratings) ≤ 3.5 := min_le_left _ _
    have hsum : min (3.5 : ℚ) (listMin ratings) * ratings.length ≤ ratings.sum :=
      mul_length_le_sum fun x hx => le_trans (min_le_right _ _) (listMin_le_mem hx)
    nlinarith [hsum, h1]
  have hhi : bayesian_average ratings ≤ max 3.5 (listMax ratings) := by
    rw [heq, div_le_iff₀ hden]
    have h1 : (3.5 : ℚ) ≤ max 3.5 (listMax ratings) := le_max_left _ _
    have hsum : ratings.sum ≤ max (3.5 : ℚ) (listMax ratings) * ratings.length :=
      sum_le_mul_length fun x hx => le_trans (mem_le_listMax hx) (le_max_right _ _)
    nlinarith [hsum, h1]
  refine ⟨hlo, hhi, fun hin => ?_⟩
  constructor
  · refine le_trans ?_ hlo
    exact le_min (by norm_num) (le_listMin h fun x hx => (hin x hx).1)
  · refine le_trans hhi ?_
    exact max_le (by norm_num) (listMax_le h fun x hx => (hin x hx).2)

theorem bayesian_average_bounds_witness :
    ([4] : List ℚ) ≠ [] ∧
    (min 3.5 (listMin [4]) ≤ bayesian_average [4] ∧
      bayesian_average [4] ≤ max 3.5 (listMax [4]) ∧
      ((∀ r ∈ ([4] : List ℚ), 1 ≤ r ∧ r ≤ 5) →
        1 ≤ bayesian_average [4] ∧ bayesian_average [4] ≤ 5)) :=
  ⟨List.cons_ne_nil _ _, bayesian_average_bounds [4] (List.cons_ne_nil _ _)⟩

theorem lookup_updateEntry_self :
    ∀ (state : List (ℕ × Entry)) (rid : ℕ) (e e' : Entry),
      lookup state rid = some e →
      lookup (updateEntry state rid e') rid = some e' := by
  intro state
  induction state with
  | nil => intro rid e e' hl; simp [lookup] at hl
  | cons p rest ih =>
    intro rid e e' hl
    by_cases hp : p.1 = rid
    · simp [lookup, updateEntry, hp]
    · simp only [lookup, updateEntry, if_neg hp] at hl ⊢
      exact ih rid e e' hl

theorem lookup_updateEntry_ne :
    ∀ (state : List (ℕ × Entry)) (rid rid2 : ℕ) (e' : Entry), rid2 ≠ rid →
      lookup (updateEntry state rid e') rid2 = lookup state rid2 := by
  intro state
  induction state with
  | nil => intro rid rid2 e' hne; rfl
  | cons p rest ih =>
    intro rid rid2 e' hne
    by_cases hp : p.1 = rid
    · have hr2 : rid ≠ rid2 := fun hcon => hne hcon.symm
      simp [lookup, updateEntry, hp, hr2]
    · simp only [updateEntry, if_neg hp]
      by_cases hq : p.1 = rid2
      · simp [lookup, hq]
      · simp only [lookup, if_neg hq]
        exact ih rid rid2 e' hne

/-- C8: once an item exists, a later rating submission only appends the
new rating to its `ratings`; every stored field keeps the value captured
at creation regardless of the catalog data the caller supplies, and no
other key of the session dict changes. -/
theorem save_rating_frame (state : List (ℕ × Entry)) (rid : ℕ)
    (title image : String) (calories base_price protein fat carbs rating : ℚ)
    (e : Entry) (h : lookup state rid = some e) :
    lookup (save_rating state rid title image calories base_price protein
        fat carbs rating) rid
      = some { e with ratings := e.ratings ++ [rating] } ∧
    ∀ rid2, rid2 ≠ rid →
      lookup (save_rating state rid title image calories base_price protein
          fat carbs rating) rid2
        = lookup state rid2 := by
  have hs : save_rating state rid title image calories base_price protein
      fat carbs rating
      = updateEntry state rid { e with ratings := e.ratings ++ [rating] } := by
    simp only [save_rating, h]
  rw [hs]
  exact ⟨lookup_updateEntry_self state rid e _ h,
    fun rid2 h2 => lookup_updateEntry_ne state rid rid2 _ h2⟩

theorem save_rating_frame_witness :
    lookup [(7, itemA)] 7 = some itemA ∧
    lookup (save_rating [(7, itemA)] 7 "Other" "other" 999 999 9 9 9 2) 7
      = some { itemA with ratings := itemA.ratings ++ [2] } ∧
    lookup (save_rating [(7, itemA)] 7 "Other" "other" 999 999 9 9 9 2) 8
      = lookup [(7, itemA)] 8 :=
  ⟨rfl,
   (save_rating_frame [(7, itemA)] 7 "Other" "other" 999 999 9 9 9 2
     itemA rfl).1,
   (save_rating_frame [(7, itemA)] 7 "Other" "other" 999 999 9 9 9 2
     itemA rfl).2 8 (by decide)⟩

theorem qdivChecked_eq (a b : ℚ) (hb : b ≠ 0) :
    qdivChecked a b = some (a / b) := by
  simp [qdivChecked, hb]

theorem mapOption_eq_some {α β : Type} (f : α → Option β) (g : α → β)
    (l : List α) (h : ∀ x ∈ l, f x = some (g x)) :
    mapOption f l = some (l.map g) := by
  induction l with
  | nil => rfl
  | cons x xs ih =>
    rw [List.map_cons, mapOption, h x (List.mem_cons_self x xs),
      ih fun y hy => h y (List.mem_cons_of_mem x hy)]
    rfl

theorem bayesian_averageChecked_eq (ratings : List ℚ) :
    bayesian_averageChecked ratings = some (bayesian_average ratings) := by
  by_cases hl : ratings.length = 0
  · simp [bayesian_averageChecked, bayesian_average, hl]
  · have hq : (ratings.length : ℚ) ≠ 0 := Nat.cast_ne_zero.mpr hl
    have hq5 : (5 : ℚ) + ratings.length ≠ 0 := by positivity
    simp [bayesian_averageChecked, bayesian_average, hl, qdivChecked, hq, hq5]

theorem calculate_priceChecked_eq (base_price rating : ℚ) :
    calculate_priceChecked base_price rating
      = some (calculate_price base_price rating) := by
  have h100 : (100 : ℚ) ≠ 0 := by norm_num
  by_cases hb : base_price = 0
  · simp [calculate_priceChecked, calculate_price, hb]
  · by_cases h45 : rating ≥ 4.5
    · simp [calculate_priceChecked, calculate_price, hb, h45,
        round2Checked, round2, qdivChecked, h100]
    · by_cases h3 : rating < 3.0
      · simp [calculate_priceChecked, calculate_price, hb, h45, h3,
          round2Checked, round2, qdivChecked, h100]
      · simp [calculate_priceChecked, calculate_price, hb, h45, h3,
          round2Checked, round2, qdivChecked, h100]

theorem normChecked_eq (series : List ℚ) (reverse : Bool) :
    normChecked series reverse = some (_norm series reverse) := by
  by_cases hc : listMax series = listMin series
  · simp [normChecked, _norm, hc]
  · have hd : listMax series - listMin series ≠ 0 := sub_ne_zero.mpr hc
    simp only [normChecked, _norm, if_neg hc]
    rw [mapOption_eq_some _
      (fun x => (x - listMin series) / (listMax series - listMin series)) _
      fun x _ => qdivChecked_eq _ _ hd]
    rfl

theorem baseRowChecked_eq (p : ℕ × Entry) :
    baseRowChecked p = some (baseRow p) := by
  rw [baseRowChecked, bayesian_averageChecked_eq]
  simp only [Option.bind_eq_bind, Option.some_bind, calculate_priceChecked_eq,
    Option.pure_def]
  rfl

theorem build_score_dfChecked_eq (recipe_ratings : List (ℕ × Entry)) :
    build_score_dfChecked recipe_ratings
      = some (build_score_df recipe_ratings) := by
  rw [build_score_dfChecked, build_score_df,
    mapOption_eq_some _ baseRow _ fun p _ => baseRowChecked_eq p]
  simp only [Option.bind_eq_bind, Option.some_bind, Option.pure_def]
  by_cases he :
      ((recipe_ratings.filter fun p => !p.2.ratings.isEmpty).map baseRow).isEmpty
  · simp [he]
  · simp only [he, if_false, Bool.false_eq_true, normChecked_eq,
      Option.some_bind]

theorem choose_dish_of_the_dayChecked_eq (df : List ScoreRow) :
    choose_dish_of_the_dayChecked df
      = some (choose_dish_of_the_day df) := by
  cases df with
  | nil => rfl
  | cons r rs =>
    simp [choose_dish_of_the_dayChecked, choose_dish_of_the_day, idxmaxChecked]

/-- C9: every core operation is total with no fatal-error path: the
variant of the pipeline in which every division (and the `idxmax` call)
can fail succeeds on all inputs and agrees with the total embedding, so
the division-by-zero branches guarded by `n == 0` and `max == min` are
unreachable. -/
theorem core_total_spec :
    (∀ ratings : List ℚ,
      bayesian_averageChecked ratings = some (bayesian_average ratings)) ∧
    (∀ base_price rating : ℚ,
      calculate_priceChecked base_price rating
        = some (calculate_price base_price rating)) ∧
    (∀ (series : List ℚ) (reverse : Bool),
      normChecked series reverse = some (_norm series reverse)) ∧
    (∀ recipe_ratings : List (ℕ × Entry),
      build_score_dfChecked recipe_ratings
        = some (build_score_df recipe_ratings)) ∧
    (∀ df : List ScoreRow,
      choose_dish_of_the_dayChecked df
        = some (choose_dish_of_the_day df)) :=
  ⟨bayesian_averageChecked_eq, calculate_priceChecked_eq, normChecked_eq,
   build_score_dfChecked_eq, choose_dish_of_the_dayChecked_eq⟩

theorem norm_mem_bounds {series : List ℚ} {reverse : Bool} {y : ℚ}
    (hy : y ∈ _norm series reverse) : 0 ≤ y ∧ y ≤ 1 := by
  by_cases hc : listMax series = listMin series
  · simp only [_norm, if_pos hc] at hy
    obtain ⟨x, _, hxy⟩ := List.mem_map.mp hy
    rw [← hxy]
    norm_num
  · have hne : series ≠ [] := by
      intro hnil
      rw [hnil] at hc
      exact hc rfl
    have hlt : listMin series < listMax series :=
      lt_of_le_of_ne (listMin_le_listMax hne) fun heq => hc heq.symm
    have hden : (0 : ℚ) < listMax series - listMin series := sub_pos.mpr hlt
    have hbound : ∀ x ∈ series,
        0 ≤ (x - listMin series) / (listMax series - listMin series) ∧
        (x - listMin series) / (listMax series - listMin series) ≤ 1 := by
      intro x hx
      constructor
      · exact div_nonneg (sub_nonneg.mpr (listMin_le_mem hx)) (le_of_lt hden)
      · rw [div_le_one hden]
        have := mem_le_listMax hx
        linarith
    simp only [_norm, if_neg hc] at hy
    cases reverse with
    | false =>
      simp only [Bool.false_eq_true, if_false] at hy
      obtain ⟨x, hx, hxy⟩ := List.mem_map.mp hy
      rw [← hxy]
      exact hbound x hx
    | true =>
      simp only [if_true] at hy
      obtain ⟨z, hz, hzy⟩ := List.mem_map.mp hy
      obtain ⟨x, hx, hxz⟩ := List.mem_map.mp hz
      rw [← hzy, ← hxz]
      have := hbound x hx
      constructor <;> [linarith [this.2]; linarith [this.1]]

/-- C10: whenever at least one item is rated, every composite score the
scoring pass produces lies in `[0, 1]`: each normalized component does,
and the weights `0.5`, `0.3`, `0.2` sum to `1`. -/
theorem composite_scores_in_unit_interval (recipe_ratings : List (ℕ × Entry))
    (h : ∃ p ∈ recipe_ratings, p.2.ratings ≠ []) :
    ∀ row ∈ build_score_df recipe_ratings,
      0 ≤ row.score ∧ row.score ≤ 1 := by
  intro row hrow
  simp only [build_score_df] at hrow
  by_cases he :
      ((recipe_ratings.filter fun p => !p.2.ratings.isEmpty).map baseRow).isEmpty
  · rw [if_pos he] at hrow
    cases hrow
  · rw [if_neg he] at hrow
    obtain ⟨q, hq, hqrow⟩ := List.mem_map.mp hrow
    obtain ⟨a, b, c, d⟩ := q
    have hz := List.of_mem_zip hq
    have hz2 := List.of_mem_zip hz.2
    have hz3 := List.of_mem_zip hz2.2
    have hb := norm_mem_bounds hz2.1
    have hcb := norm_mem_bounds hz3.1
    have hd := norm_mem_bounds hz3.2
    rw [← hqrow]
    simp only [withNorms, WEIGHT_RATING, WEIGHT_PRICE, WEIGHT_CAL]
    constructor
    · nlinarith [hb.1, hcb.1, hd.1]
    · nlinarith [hb.2, hcb.2, hd.2]

theorem composite_scores_in_unit_interval_witness :
    (∃ p ∈ [(1, itemA), (2, itemB), (3, itemC)], p.2.ratings ≠ []) ∧
    ∀ row ∈ build_score_df [(1, itemA), (2, itemB), (3, itemC)],
      0 ≤ row.score ∧ row.score ≤ 1 :=
  ⟨⟨(1, itemA), List.mem_cons_self _ _, by simp [itemA]⟩,
   composite_scores_in_unit_interval _
     ⟨(1, itemA), List.mem_cons_self _ _, by simp [itemA]⟩⟩

theorem build_score_df_scenario :
    build_score_df [(1, itemA), (2, itemB), (3, itemC)]
      = [scoreRowA, scoreRowB, scoreRowC] := by
  have hbA : bayesian_average [5, 5] = 55/14 := by norm_num [bayesian_average]
  have hbB : bayesian_average [3] = 41/12 := by norm_num [bayesian_average]
  have hbC : bayesian_average [1, 1, 1] = 41/16 := by
    norm_num [bayesian_average]
  have hpA : calculate_price 10 (55/14) = 10 := by
    norm_num [calculate_price, round2, roundHalfEven]
  have hpB : calculate_price 8 (41/12) = 8 := by
    norm_num [calculate_price, round2, roundHalfEven]
  have hpC : calculate_price 12 (41/16) = 54/5 := by
    norm_num [calculate_price, round2, roundHalfEven]
  have hnr : _norm [55/14, 41/12, 41/16] false = [1, 287/459, 0] := by
    norm_num [_norm, listMax, listMin, max_def, min_def]
  have hnp : _norm [10, 8, 54/5] true = [2/7, 1, 0] := by
    norm_num [_norm, listMax, listMin, max_def, min_def]
  have hnc : _norm [400, 800, 300] true = [4/5, 0, 1] := by
    norm_num [_norm, listMax, listMin, max_def, min_def]
  norm_num [build_score_df, baseRow, withNorms, itemA, itemB, itemC,
    hbA, hbB, hbC, hpA, hpB, hpC, hnr, hnp, hnc,
    WEIGHT_RATING, WEIGHT_PRICE, WEIGHT_CAL,
    scoreRowA, scoreRowB, scoreRowC]

/-- C6: on the three-item end-to-end scenario the pipeline yields
smoothed ratings ≈3.93, ≈3.42, ≈2.56, adjusted prices 10.0, 8.0, 10.8,
composite scores ≈0.746, ≈0.614 and exactly 0.2, and picks item A. -/
theorem end_to_end_scenario :
    (build_score_df [(1, itemA), (2, itemB), (3, itemC)]).map (·.bayes_rating)
      = [55/14, 41/12, 41/16] ∧
    |(55 : ℚ)/14 - 3.93| < 0.005 ∧ |(41 : ℚ)/12 - 3.42| < 0.005 ∧
    |(41 : ℚ)/16 - 2.56| < 0.005 ∧
    (build_score_df [(1, itemA), (2, itemB), (3, itemC)]).map (·.price)
      = [10, 8, 10.8] ∧
    (build_score_df [(1, itemA), (2, itemB), (3, itemC)]).map (·.score)
      = [261/350, 1406/2295, 0.2] ∧
    |(261 : ℚ)/350 - 0.746| < 0.005 ∧ |(1406 : ℚ)/2295 - 0.614| < 0.005 ∧
    ((choose_dish_of_the_day
        (build_score_df [(1, itemA), (2, itemB), (3, itemC)])).1).map
      (fun r => r.title) = some "A" := by
  refine ⟨?_, ?_, ?_, ?_, ?_, ?_, ?_, ?_, ?_⟩
  · rw [build_score_df_scenario]
    norm_num [scoreRowA, scoreRowB, scoreRowC]
  · rw [abs_lt]; constructor <;> norm_num
  · rw [abs_lt]; constructor <;> norm_num
  · rw [abs_lt]; constructor <;> norm_num
  · rw [build_score_df_scenario]
    norm_num [scoreRowA, scoreRowB, scoreRowC]
  · rw [build_score_df_scenario]
    norm_num [scoreRowA, scoreRowB, scoreRowC]
  · rw [abs_lt]; constructor <;> norm_num
  · rw [abs_lt]; constructor <;> norm_num
  · rw [build_score_df_scenario]
    norm_num [choose_dish_of_the_day, idxmaxAux,
      scoreRowA, scoreRowB, scoreRowC]

/-- C4: the scoring pass equals the spec's `score_all` pipeline —
discard unrated items, smooth and price each retained item, normalize
the three columns over the retained collection (price and calories
reversed), weight them `0.5/0.3/0.2` — and every output row stems from a
retained input item. -/
theorem build_score_df_spec (recipe_ratings : List (ℕ × Entry)) :
    build_score_df recipe_ratings = score_all_spec recipe_ratings ∧
    ∀ row ∈ build_score_df recipe_ratings, ∃ p ∈ recipe_ratings,
      p.2.ratings ≠ [] ∧ row.id = p.1 ∧
      row.bayes_rating = bayesian_average p.2.ratings ∧
      row.price = calculate_price p.2.base_price (bayesian_average p.2.ratings)
      := by
  constructor
  · simp only [build_score_df, score_all_spec]
    cases hfil : recipe_ratings.filter fun p => !p.2.ratings.isEmpty with
    | nil => rfl
    | cons a as =>
      have hne : ¬((a :: as).map baseRow).isEmpty = true := by simp
      rw [if_neg hne, List.zip_map_left]
      simp only [List.map_map]
      rfl
  · intro row hrow
    simp only [build_score_df] at hrow
    by_cases he :
        ((recipe_ratings.filter fun p => !p.2.ratings.isEmpty).map baseRow).isEmpty
    · rw [if_pos he] at hrow
      cases hrow
    · rw [if_neg he] at hrow
      obtain ⟨q, hq, hqrow⟩ := List.mem_map.mp hrow
      obtain ⟨a, b, c, d⟩ := q
      have hz := List.of_mem_zip hq
      obtain ⟨p, hp, hpa⟩ := List.mem_map.mp hz.1
      have hpf := List.mem_filter.mp hp
      refine ⟨p, hpf.1, ?_, ?_, ?_, ?_⟩
      · intro hnil
        have := hpf.2
        rw [hnil] at this
        simp at this
      · rw [← hqrow, ← hpa]
        rfl
      · rw [← hqrow, ← hpa]
        rfl
      · rw [← hqrow, ← hpa]
        rfl

theorem build_score_df_spec_witness :
    build_score_df [(1, itemA), (2, itemB), (3, itemC)]
      = score_all_spec [(1, itemA), (2, itemB), (3, itemC)] ∧
    (scoreRowA ∈ build_score_df [(1, itemA), (2, itemB), (3, itemC)] ∧
      ∃ p ∈ [(1, itemA), (2, itemB), (3, itemC)],
        p.2.ratings ≠ [] ∧ scoreRowA.id = p.1 ∧
        scoreRowA.bayes_rating = bayesian_average p.2.ratings ∧
        scoreRowA.price
          = calculate_price p.2.base_price (bayesian_average p.2.ratings)) :=
  ⟨(build_score_df_spec [(1, itemA), (2, itemB), (3, itemC)]).1,
   by rw [build_score_df_scenario]; exact List.mem_cons_self _ _,
   (build_score_df_spec [(1, itemA), (2, itemB), (3, itemC)]).2 scoreRowA
     (by rw [build_score_df_scenario]; exact List.mem_cons_self _ _)⟩

end SmartMeal
